import Mathlib

/-!
Verification development for the ProtocolLLM evaluation pipeline.

The Python sources are shallowly embedded over `List Char` (the model of a
Python `str`).  The regular-expression searches used by the pipeline are
small fixed patterns (`re.search` with `re.DOTALL`); each one is embedded
as an executable function that scans candidate start positions from the
left, exactly as Python's leftmost-match `re.search` does, with the
backtracking behaviour of each concrete pattern resolved into a
deterministic computation (justified pattern by pattern in the doc
comments below).
-/

/-- Python's `\s` character class (`re.search` on `str`), restricted to the
ASCII whitespace characters; all inputs in this development are ASCII. -/
def pyIsSpace (c : Char) : Bool :=
  c = ' ' || c = '\t' || c = '\n' || c = '\r' || c = '\x0b' || c = '\x0c'

/-- Python's `\w` character class, restricted to ASCII: letters, digits and
underscore. -/
def pyIsWord (c : Char) : Bool :=
  ('a' ≤ c && c ≤ 'z') || ('A' ≤ c && c ≤ 'Z') || ('0' ≤ c && c ≤ '9') || c = '_'

/-- Try `f start`, `f (start+1)`, ... for `fuel` steps, returning the first
`some` result.  This is the leftmost-match scan of Python's `re.search`. -/
def firstSomeFrom {α : Type} (f : Nat → Option α) : Nat → Nat → Option α
  | _, 0 => none
  | start, fuel + 1 =>
    match f start with
    | some a => some a
    | none => firstSomeFrom f (start + 1) fuel

/-- First position `≥ k` at which `pat` occurs in `s` (Python `s.find(pat, k)`
and the literal-substring part of the regex searches). -/
def findSub (pat s : List Char) (k : Nat) : Option Nat :=
  firstSomeFrom (fun p => if pat.isPrefixOf (s.drop p) then some p else none)
    k (s.length + 1 - k)

/-- Python's `pat in s` substring test. -/
def containsSub (pat s : List Char) : Bool :=
  (findSub pat s 0).isSome

/-- Length of the maximal run of characters satisfying `p` at the front of
the list (used for the greedy `\s*`, `\s+`, `\w+` pieces of the patterns). -/
def countWhile (p : Char → Bool) : List Char → Nat
  | [] => 0
  | c :: cs => if p c then countWhile p cs + 1 else 0

/-- The slice `s[a:b]` of Python. -/
def sliceStr (s : List Char) (a b : Nat) : List Char :=
  (s.drop a).take (b - a)

/-- Python `str.strip()`: remove leading and trailing whitespace. -/
def stripL (s : List Char) : List Char :=
  ((s.dropWhile pyIsSpace).reverse.dropWhile pyIsSpace).reverse

-- ## Basic lemmas about the search primitives

theorem firstSomeFrom_eq_none_iff {α : Type} (f : Nat → Option α) :
    ∀ fuel start, firstSomeFrom f start fuel = none ↔ ∀ d < fuel, f (start + d) = none := by
  intro fuel
  induction fuel with
  | zero => intro start; simp [firstSomeFrom]
  | succ n ih =>
    intro start
    simp only [firstSomeFrom]
    cases h : f start with
    | some a =>
      simp only [reduceCtorEq, false_iff]
      intro hall
      have := hall 0 (Nat.succ_pos n)
      simp [h] at this
    | none =>
      rw [ih]
      constructor
      · intro hall d hd
        cases d with
        | zero => simpa using h
        | succ d =>
          have hx := hall d (Nat.lt_of_succ_lt_succ hd)
          have he : start + 1 + d = start + (d + 1) := by omega
          rwa [he] at hx
      · intro hall d hd
        have hx := hall (d + 1) (Nat.succ_lt_succ hd)
        have he : start + (d + 1) = start + 1 + d := by omega
        rwa [he] at hx

theorem firstSomeFrom_eq_some_of {α : Type} (f : Nat → Option α) (fuel start d : Nat) (a : α)
    (hd : d < fuel) (hf : f (start + d) = some a) (hnone : ∀ j < d, f (start + j) = none) :
    firstSomeFrom f start fuel = some a := by
  induction d generalizing start fuel with
  | zero =>
    cases fuel with
    | zero => exact absurd hd (Nat.not_lt_zero 0)
    | succ n =>
      have hf0 : f start = some a := by simpa using hf
      simp [firstSomeFrom, hf0]
  | succ d ih =>
    cases fuel with
    | zero => exact absurd hd (Nat.not_lt_zero _)
    | succ n =>
      have h0 : f start = none := by simpa using hnone 0 (Nat.succ_pos d)
      simp only [firstSomeFrom, h0]
      apply ih n (start + 1) (Nat.lt_of_succ_lt_succ hd)
      · have he : start + 1 + d = start + (d + 1) := by omega
        rwa [he]
      · intro j hj
        have hx := hnone (j + 1) (Nat.succ_lt_succ hj)
        have he : start + (j + 1) = start + 1 + j := by omega
        rwa [he] at hx

theorem firstSomeFrom_exists_of_eq_some {α : Type} (f : Nat → Option α) :
    ∀ fuel start a, firstSomeFrom f start fuel = some a →
      ∃ d, d < fuel ∧ f (start + d) = some a := by
  intro fuel
  induction fuel with
  | zero => intro start a h; simp [firstSomeFrom] at h
  | succ n ih =>
    intro start a h
    simp only [firstSomeFrom] at h
    cases hf : f start with
    | some b =>
      rw [hf] at h
      refine ⟨0, Nat.succ_pos n, ?_⟩
      simp only [Nat.add_zero, hf]
      simpa using h
    | none =>
      rw [hf] at h
      obtain ⟨d, hd, hfd⟩ := ih (start + 1) a h
      refine ⟨d + 1, Nat.succ_lt_succ hd, ?_⟩
      have he : start + (d + 1) = start + 1 + d := by omega
      rwa [he]

theorem firstSomeFrom_eq_some_iff {α : Type} (f : Nat → Option α) :
    ∀ fuel start a, firstSomeFrom f start fuel = some a ↔
      ∃ d, d < fuel ∧ f (start + d) = some a ∧ ∀ j < d, f (start + j) = none := by
  intro fuel
  induction fuel with
  | zero => intro start a; simp [firstSomeFrom]
  | succ n ih =>
    intro start a
    simp only [firstSomeFrom]
    cases hf : f start with
    | some b =>
      constructor
      · intro h
        refine ⟨0, Nat.succ_pos n, ?_, by omega⟩
        simpa [hf] using h
      · rintro ⟨d, hd, hfd, hmin⟩
        cases d with
        | zero => simp only [Nat.add_zero, hf] at hfd; simpa using hfd
        | succ d =>
          have := hmin 0 (Nat.succ_pos d)
          simp [hf] at this
    | none =>
      rw [ih]
      constructor
      · rintro ⟨d, hd, hfd, hmin⟩
        refine ⟨d + 1, Nat.succ_lt_succ hd, ?_, ?_⟩
        · have he : start + (d + 1) = start + 1 + d := by omega
          rwa [he]
        · intro j hj
          cases j with
          | zero => simpa using hf
          | succ j =>
            have hx := hmin j (Nat.lt_of_succ_lt_succ hj)
            have he : start + (j + 1) = start + 1 + j := by omega
            rw [he]; exact hx
      · rintro ⟨d, hd, hfd, hmin⟩
        cases d with
        | zero => simp only [Nat.add_zero, hf] at hfd; exact absurd hfd (by simp)
        | succ d =>
          refine ⟨d, Nat.lt_of_succ_lt_succ hd, ?_, ?_⟩
          · have he : start + 1 + d = start + (d + 1) := by omega
            rwa [he]
          · intro j hj
            have hx := hmin (j + 1) (Nat.succ_lt_succ hj)
            have he : start + (j + 1) = start + 1 + j := by omega
            rwa [he] at hx

-- ## isPrefixOf lemmas

theorem isPrefixOf_nil_left (l : List Char) : List.isPrefixOf [] l = true := by
  cases l <;> rfl

theorem isPrefixOf_cons_iff (a : Char) (p l : List Char) :
    List.isPrefixOf (a :: p) l = true ↔ ∃ t, l = a :: t ∧ List.isPrefixOf p t = true := by
  cases l with
  | nil => simp [List.isPrefixOf]
  | cons b t =>
    simp only [List.isPrefixOf, Bool.and_eq_true, beq_iff_eq]
    constructor
    · rintro ⟨rfl, h⟩; exact ⟨t, rfl, h⟩
    · rintro ⟨t', ht, h⟩
      injection ht with h1 h2
      subst h1; subst h2
      exact ⟨rfl, h⟩

theorem isPrefixOf_iff_append (p l : List Char) :
    List.isPrefixOf p l = true ↔ ∃ t, l = p ++ t := by
  induction p generalizing l with
  | nil => simp [isPrefixOf_nil_left]
  | cons a p ih =>
    rw [isPrefixOf_cons_iff]
    constructor
    · rintro ⟨t, rfl, h⟩
      obtain ⟨u, rfl⟩ := ih t |>.mp h
      exact ⟨u, rfl⟩
    · rintro ⟨t, rfl⟩
      exact ⟨p ++ t, rfl, (ih _).mpr ⟨t, rfl⟩⟩

theorem isPrefixOf_append_left (p t : List Char) : List.isPrefixOf p (p ++ t) = true :=
  (isPrefixOf_iff_append p _).mpr ⟨t, rfl⟩

theorem isPrefixOf_trans {p q l : List Char} (h1 : List.isPrefixOf p q = true)
    (h2 : List.isPrefixOf q l = true) : List.isPrefixOf p l = true := by
  obtain ⟨t, rfl⟩ := (isPrefixOf_iff_append p q).mp h1
  obtain ⟨u, rfl⟩ := (isPrefixOf_iff_append _ l).mp h2
  rw [List.append_assoc]
  exact isPrefixOf_append_left p _

theorem isPrefixOf_head (c : Char) (p l : List Char)
    (h : List.isPrefixOf (c :: p) l = true) : l[0]? = some c := by
  obtain ⟨t, rfl, _⟩ := (isPrefixOf_cons_iff c p l).mp h
  simp

theorem occ_lt_length (c : Char) (p s : List Char) (m : Nat)
    (h : List.isPrefixOf (c :: p) (s.drop m) = true) : m < s.length := by
  by_contra hge
  rw [List.drop_eq_nil_of_le (by omega)] at h
  simp [List.isPrefixOf] at h

-- ## findSub lemmas

theorem findSub_isSome_of_occ (pat s : List Char) (k m : Nat) (hne : pat ≠ [])
    (hk : k ≤ m) (hocc : List.isPrefixOf pat (s.drop m) = true) :
    (findSub pat s k).isSome = true := by
  obtain ⟨c, p, rfl⟩ : ∃ c p, pat = c :: p := by
    cases pat with
    | nil => exact absurd rfl hne
    | cons c p => exact ⟨c, p, rfl⟩
  have hm : m < s.length := occ_lt_length c p s m hocc
  rw [findSub]
  cases hres : firstSomeFrom (fun p' => if List.isPrefixOf (c :: p) (s.drop p') then some p' else none)
      k (s.length + 1 - k) with
  | some v => rfl
  | none =>
    rw [firstSomeFrom_eq_none_iff] at hres
    have := hres (m - k) (by omega)
    rw [show k + (m - k) = m by omega] at this
    simp [hocc] at this

theorem findSub_eq_some (pat s : List Char) (k m : Nat)
    (h : findSub pat s k = some m) :
    k ≤ m ∧ List.isPrefixOf pat (s.drop m) = true ∧
      ∀ j, k ≤ j → j < m → List.isPrefixOf pat (s.drop j) = false := by
  rw [findSub, firstSomeFrom_eq_some_iff] at h
  obtain ⟨d, hd, hfd, hmin⟩ := h
  have hpre : List.isPrefixOf pat (s.drop (k + d)) = true ∧ m = k + d := by
    by_cases hp : List.isPrefixOf pat (s.drop (k + d)) = true
    · simp [hp] at hfd; exact ⟨hp, hfd.symm⟩
    · simp [hp] at hfd
  obtain ⟨hp, rfl⟩ := hpre
  refine ⟨by omega, hp, ?_⟩
  intro j hkj hjm
  have hx := hmin (j - k) (by omega)
  rw [show k + (j - k) = j by omega] at hx
  by_cases hpj : List.isPrefixOf pat (s.drop j) = true
  · simp [hpj] at hx
  · exact Bool.eq_false_iff.mpr hpj

theorem findSub_eq_none (pat s : List Char) (k : Nat) (hne : pat ≠ [])
    (h : findSub pat s k = none) :
    ∀ j, k ≤ j → List.isPrefixOf pat (s.drop j) = false := by
  obtain ⟨c, p, rfl⟩ : ∃ c p, pat = c :: p := by
    cases pat with
    | nil => exact absurd rfl hne
    | cons c p => exact ⟨c, p, rfl⟩
  rw [findSub, firstSomeFrom_eq_none_iff] at h
  intro j hkj
  by_cases hpj : List.isPrefixOf (c :: p) (s.drop j) = true
  · have hm : j < s.length := occ_lt_length c p s j hpj
    have := h (j - k) (by omega)
    rw [show k + (j - k) = j by omega] at this
    simp [hpj] at this
  · exact Bool.eq_false_iff.mpr hpj

theorem findSub_eq_some_of (pat s : List Char) (k m : Nat)
    (hk : k ≤ m) (hocc : List.isPrefixOf pat (s.drop m) = true)
    (hm : m < s.length + 1)
    (hmin : ∀ j, k ≤ j → j < m → List.isPrefixOf pat (s.drop j) = false) :
    findSub pat s k = some m := by
  rw [findSub]
  apply firstSomeFrom_eq_some_of _ _ _ (m - k)
  · omega
  · rw [show k + (m - k) = m by omega]
    simp [hocc]
  · intro j hj
    have := hmin (k + j) (by omega) (by omega)
    simp [this]

-- ## countWhile lemmas

theorem countWhile_get (p : Char → Bool) :
    ∀ (l : List Char) (j : Nat), j < countWhile p l →
      ∃ c, l[j]? = some c ∧ p c = true := by
  intro l
  induction l with
  | nil => intro j hj; simp [countWhile] at hj
  | cons c cs ih =>
    intro j hj
    by_cases hc : p c = true
    · cases j with
      | zero => exact ⟨c, by simp, hc⟩
      | succ j =>
        rw [countWhile, if_pos hc] at hj
        obtain ⟨d, hd, hpd⟩ := ih j (by omega)
        exact ⟨d, by simpa using hd, hpd⟩
    · rw [countWhile, if_neg hc] at hj
      omega

theorem countWhile_stop (p : Char → Bool) :
    ∀ (l : List Char) (c : Char), l[countWhile p l]? = some c → p c = false := by
  intro l
  induction l with
  | nil => intro c hc; simp at hc
  | cons d cs ih =>
    intro c hc
    by_cases hd : p d = true
    · rw [countWhile, if_pos hd] at hc
      exact ih c (by simpa using hc)
    · rw [countWhile, if_neg hd] at hc
      simp at hc
      subst hc
      simpa using hd

-- ## Embedding of src/convert.py

/-- The literal `\x60\x60\x60systemverilog` head of the first pattern. -/
def svFence : List Char := "```systemverilog".data

/-- A triple-backtick fence. -/
def fence3 : List Char := "```".data

def kwModule : List Char := "module".data

def kwEndmodule : List Char := "endmodule".data

/-- Match attempt at position `i` of `re.search(r"\x60\x60\x60systemverilog\s*(.*?)\x60\x60\x60", value, re.DOTALL)`.
After the literal head, the greedy `\s*` takes the whole whitespace run; the
lazy `(.*?)` then ends at the first following fence.  Backtracking `\s*`
cannot produce any other match: a fence character is not whitespace, so no
fence occurrence starts inside the whitespace run. -/
def svAttempt (s : List Char) (i : Nat) : Option (List Char) :=
  if List.isPrefixOf svFence (s.drop i) then
    let j := i + 16
    let w := countWhile pyIsSpace (s.drop j)
    match findSub fence3 s (j + w) with
    | some m => some (sliceStr s (j + w) m)
    | none => none
  else none

/-- `re.search` of the first pattern: leftmost matching start position. -/
def svSearch (s : List Char) : Option (List Char) :=
  firstSomeFrom (svAttempt s) 0 (s.length + 1)

/-- Match attempt at position `i` of the generic fenced-block pattern
`re.search(r"\x60\x60\x60(?:\w*\n)?(.*?)\x60\x60\x60", value, re.DOTALL)`.  The optional
greedy `(?:\w*\n)?` consumes a maximal word-character run plus a newline
when the character right after that run is a newline, and nothing
otherwise; the lazy group then ends at the first following fence.  As no
fence character is a word character or a newline, backtracking the
optional group cannot turn a failed fence search into a successful one. -/
def genAttempt (s : List Char) (i : Nat) : Option (List Char) :=
  if List.isPrefixOf fence3 (s.drop i) then
    let j := i + 3
    let u := countWhile pyIsWord (s.drop j)
    let k := if s[j + u]? = some '\n' then j + u + 1 else j
    match findSub fence3 s k with
    | some m => some (sliceStr s k m)
    | none => none
  else none

/-- `re.search` of the generic fenced-block pattern. -/
def genSearch (s : List Char) : Option (List Char) :=
  firstSomeFrom (genAttempt s) 0 (s.length + 1)

/-- Match attempt at position `i` of
`re.search(r"module\s+\w+\s*\(.*?endmodule", value, re.DOTALL)`; the result
is `group(0)`, the whole span.  The greedy `\s+`, `\w+`, `\s*` pieces take
their maximal runs (no other backtracking split can match, since a
whitespace character is never a word character or `(`, and conversely);
the lazy `.*?` ends at the first following `endmodule`. -/
def modAttempt (s : List Char) (i : Nat) : Option (List Char) :=
  if List.isPrefixOf kwModule (s.drop i) then
    let j := i + 6
    let w := countWhile pyIsSpace (s.drop j)
    if w = 0 then none
    else
      let u := countWhile pyIsWord (s.drop (j + w))
      if u = 0 then none
      else
        let v := countWhile pyIsSpace (s.drop (j + w + u))
        if s[j + w + u + v]? = some '(' then
          match findSub kwEndmodule s (j + w + u + v + 1) with
          | some m => some (sliceStr s i (m + 9))
          | none => none
        else none
  else none

/-- `re.search` of the `module ... endmodule` span pattern. -/
def modSearch (s : List Char) : Option (List Char) :=
  firstSomeFrom (modAttempt s) 0 (s.length + 1)

/-- Match attempt at position `i` of `re.search(r"module\s+(\w+)", code)`,
returning `group(1)`: the maximal word run after the whitespace run. -/
def mnAttempt (s : List Char) (i : Nat) : Option (List Char) :=
  if List.isPrefixOf kwModule (s.drop i) then
    let j := i + 6
    let w := countWhile pyIsSpace (s.drop j)
    if w = 0 then none
    else
      let u := countWhile pyIsWord (s.drop (j + w))
      if u = 0 then none
      else some (sliceStr s (j + w) (j + w + u))
  else none

/-- `extract_module_name` of src/convert.py. -/
def extract_module_name (code : List Char) : List Char :=
  match firstSomeFrom (mnAttempt code) 0 (code.length + 1) with
  | some g => g
  | none => "unknown_module".data

/-- `extract_code_until_endmodule` of src/convert.py: despite its name, it
truncates at the first occurrence of a newline-plus-fence in the lowercased
code, then strips. -/
def extract_code_until_endmodule (code : List Char) : List Char :=
  match findSub "\n```".data (code.map Char.toLower) 0 with
  | some p => stripL (code.take p)
  | none => stripL code

/-- The three-strategy regex chain of `process_json_files`
(src/convert.py lines 38-50): start from the empty string and let each
successful match overwrite the previous value of `code`. -/
def extractRaw (value : List Char) : List Char :=
  let code0 : List Char := []
  let code1 := match svSearch value with | some g => stripL g | none => code0
  let code2 := match genSearch value with | some g => stripL g | none => code1
  match modSearch value with | some g => stripL g | none => code2

/-- The per-answer extraction of `process_json_files`: the regex chain
followed by `extract_code_until_endmodule`. -/
def extractAnswer (value : List Char) : List Char :=
  extract_code_until_endmodule (extractRaw value)

/-- Python `l[:-n]`. -/
def dropLastN (n : Nat) (l : List Char) : List Char :=
  l.take (l.length - n)

/-- The output filename of `process_json_files`:
`f"{module_name}_code_{key.split('_')[1]}_{file.split('_')[-1][:-5]}.sv"`. -/
def convertFilename (module_name key file : List Char) : List Char :=
  module_name ++ "_code_".data ++ ((key.splitOn '_').getD 1 []) ++ "_".data ++
    dropLastN 5 (((file.splitOn '_').getLast?).getD []) ++ ".sv".data

-- ## Claims C1, C9, C10 about the extraction chain

/-- C1: for every answer string, the three regex strategies are applied in
order with each successful match overwriting the previous extraction
result, so the code computed by the chain equals the (stripped) result of
the last strategy that matched, or the empty string when none matches. -/
theorem claim_C1_last_match_wins (value : List Char) :
    extractRaw value =
      match modSearch value with
      | some g => stripL g
      | none =>
        match genSearch value with
        | some g => stripL g
        | none =>
          match svSearch value with
          | some g => stripL g
          | none => [] := by
  cases hm : modSearch value <;> cases hg : genSearch value <;> cases hs : svSearch value <;>
    simp [extractRaw, hm, hg, hs]

theorem bool_false_not (b : Bool) (h : b = false) : ¬ b = true := by simp [h]

theorem not_containsSub_no_occ (pat s : List Char) (hne : pat ≠ [])
    (h : containsSub pat s = false) :
    ∀ i, List.isPrefixOf pat (s.drop i) = false := by
  intro i
  rw [containsSub] at h
  cases hf : findSub pat s 0 with
  | some m => rw [hf] at h; simp at h
  | none => exact findSub_eq_none pat s 0 hne hf i (Nat.zero_le i)

/-- C9: if the answer string contains no triple-backtick fence and no
occurrence of the keyword `module`, the derived module name is the default
placeholder `unknown_module`. -/
theorem claim_C9_default_module_name (value : List Char)
    (hfence : containsSub fence3 value = false)
    (hmod : containsSub kwModule value = false) :
    extract_module_name (extractAnswer value) = "unknown_module".data := by
  have hno3 := not_containsSub_no_occ fence3 value (by decide) hfence
  have hnomod := not_containsSub_no_occ kwModule value (by decide) hmod
  have hnoSV : ∀ i, List.isPrefixOf svFence (value.drop i) = false := by
    intro i
    by_cases hp : List.isPrefixOf svFence (value.drop i) = true
    · have : List.isPrefixOf fence3 (value.drop i) = true :=
        isPrefixOf_trans (by decide) hp
      rw [hno3 i] at this
      exact absurd this (by simp)
    · exact Bool.eq_false_iff.mpr hp
  have hs1 : svSearch value = none := by
    rw [svSearch, firstSomeFrom_eq_none_iff]
    intro d _
    simp only [svAttempt]
    rw [if_neg (bool_false_not _ (hnoSV (0 + d)))]
  have hs2 : genSearch value = none := by
    rw [genSearch, firstSomeFrom_eq_none_iff]
    intro d _
    simp only [genAttempt]
    rw [if_neg (bool_false_not _ (hno3 (0 + d)))]
  have hs3 : modSearch value = none := by
    rw [modSearch, firstSomeFrom_eq_none_iff]
    intro d _
    simp only [modAttempt]
    rw [if_neg (bool_false_not _ (hnomod (0 + d)))]
  rw [extractAnswer, extractRaw, hs1, hs2, hs3]
  rfl

theorem svSearch_some_genSearch_isSome (value g : List Char)
    (h : svSearch value = some g) : (genSearch value).isSome = true := by
  rw [svSearch] at h
  obtain ⟨i, hilt, hatt⟩ := firstSomeFrom_exists_of_eq_some _ _ _ _ h
  rw [Nat.zero_add] at hatt
  simp only [svAttempt] at hatt
  split at hatt
  case isFalse => exact absurd hatt (by simp)
  case isTrue hsv =>
  split at hatt
  case h_2 => exact absurd hatt (by simp)
  case h_1 m heq =>
  obtain ⟨hm1, hm2, -⟩ := findSub_eq_some _ _ _ _ heq
  cases hgen : genSearch value with
  | some v => simp
  | none =>
    exfalso
    rw [genSearch, firstSomeFrom_eq_none_iff] at hgen
    have hiLen : i < value.length := by
      have hsv' : List.isPrefixOf ('`' :: "``systemverilog".data) (value.drop i) = true := hsv
      exact occ_lt_length _ _ _ _ hsv'
    have hgi := hgen i (by omega)
    rw [Nat.zero_add] at hgi
    have hf3 : List.isPrefixOf fence3 (value.drop i) = true :=
      isPrefixOf_trans (by decide) hsv
    simp only [genAttempt] at hgi
    rw [if_pos hf3] at hgi
    set u := countWhile pyIsWord (value.drop (i + 3)) with hu
    set k := (if value[i + 3 + u]? = some '\n' then i + 3 + u + 1 else i + 3) with hkdef
    have hmc : value[m]? = some '`' := by
      have hm2' : List.isPrefixOf ('`' :: "``".data) (value.drop m) = true := hm2
      have h0 := isPrefixOf_head _ _ _ hm2'
      rwa [List.getElem?_drop, Nat.add_zero] at h0
    have hkm : k ≤ m := by
      by_contra hlt
      push_neg at hlt
      rw [hkdef] at hlt
      by_cases hnl : value[i + 3 + u]? = some '\n'
      · rw [if_pos hnl] at hlt
        rcases Nat.lt_or_ge m (i + 3 + u) with hc | hc
        · have hdu : m - (i + 3) < countWhile pyIsWord (value.drop (i + 3)) := by
            rw [← hu]; omega
          obtain ⟨c, hcg, hcw⟩ := countWhile_get pyIsWord (value.drop (i + 3)) (m - (i + 3)) hdu
          rw [List.getElem?_drop, show i + 3 + (m - (i + 3)) = m by omega, hmc] at hcg
          injection hcg with hcg
          rw [← hcg] at hcw
          exact absurd hcw (by decide)
        · have hme : m = i + 3 + u := by omega
          rw [hme, hnl] at hmc
          injection hmc with hmc
          exact absurd hmc (by decide)
      · rw [if_neg hnl] at hlt
        omega
    have hfk : (findSub fence3 value k).isSome = true :=
      findSub_isSome_of_occ fence3 value k m (by decide) hkm hm2
    cases hfs : findSub fence3 value k with
    | none => rw [hfs] at hfk; simp at hfk
    | some m2 => rw [hfs] at hgi; exact absurd hgi (by simp)

/-- The extraction chain with the first (systemverilog-specific) strategy
omitted; named after the spec variant it is compared with. -/
def extractRawNoSV (value : List Char) : List Char :=
  let code0 : List Char := []
  let code2 := match genSearch value with | some g => stripL g | none => code0
  match modSearch value with | some g => stripL g | none => code2

/-- C10: whenever the systemverilog-specific fenced-block regex matches,
the generic fenced-block regex also matches and overwrites its result, so
the extraction chain computes the same code as the variant that omits the
first strategy entirely. -/
theorem claim_C10_first_strategy_redundant (value : List Char) :
    extractRaw value = extractRawNoSV value := by
  rw [extractRaw, extractRawNoSV]
  cases hm : modSearch value with
  | some g => rfl
  | none =>
    cases hg : genSearch value with
    | some g => rfl
    | none =>
      cases hs : svSearch value with
      | none => rfl
      | some g =>
        have := svSearch_some_genSearch_isSome value g hs
        rw [hg] at this
        simp at this

-- ## Claim C4: extraction of a fenced systemverilog block

theorem occ_restrict (pat l ex : List Char) (j : Nat)
    (hlen : j + pat.length ≤ l.length)
    (h : List.isPrefixOf pat ((l ++ ex).drop j) = true) :
    List.isPrefixOf pat (l.drop j) = true := by
  obtain ⟨t, ht⟩ := (isPrefixOf_iff_append _ _).mp h
  rw [List.drop_append_eq_append_drop, show j - l.length = 0 by omega, List.drop_zero] at ht
  have htake : (l.drop j).take pat.length = pat := by
    have h2 := congrArg (List.take pat.length) ht
    rw [List.take_append_eq_append_take, List.length_drop,
      show pat.length - (l.length - j) = 0 by omega, List.take_zero, List.append_nil] at h2
    rw [List.take_left] at h2
    exact h2
  have hsplit := List.take_append_drop pat.length (l.drop j)
  rw [htake] at hsplit
  exact (isPrefixOf_iff_append _ _).mpr ⟨(l.drop j).drop pat.length, hsplit.symm⟩

theorem toLower_eq_backtick (c : Char) (h : Char.toLower c = '`') : c = '`' := by
  have h' : (if c.toNat ≥ 65 ∧ c.toNat ≤ 90 then Char.ofNat (c.toNat + 32) else c) = '`' := h
  split at h'
  case isTrue hc =>
    obtain ⟨hc1, hc2⟩ := hc
    have h2 := congrArg Char.toNat h'
    obtain ⟨k, hk, hkle⟩ : ∃ k, c.toNat = 65 + k ∧ k ≤ 25 := ⟨c.toNat - 65, by omega, by omega⟩
    rw [hk] at h2
    interval_cases k <;> exact absurd h2 (by decide)
  case isFalse hc => exact h'

theorem stripL_eq_self (l : List Char)
    (h1 : ∃ c t, l = c :: t ∧ pyIsSpace c = false)
    (h2 : ∃ d, l.getLast? = some d ∧ pyIsSpace d = false) :
    stripL l = l := by
  obtain ⟨c, t, rfl, hc⟩ := h1
  obtain ⟨d, hd, hpd⟩ := h2
  rw [stripL]
  rw [List.dropWhile_cons, if_neg (bool_false_not _ hc)]
  have hrev : (c :: t).reverse.head? = some d := by rw [List.head?_reverse]; exact hd
  cases hrevl : (c :: t).reverse with
  | nil => simp [hrevl] at hrev
  | cons e t2 =>
    rw [hrevl] at hrev
    injection hrev with he
    subst he
    rw [List.dropWhile_cons, if_neg (bool_false_not _ hpd), ← hrevl, List.reverse_reverse]

theorem modAttempt_at_head (s rest : List Char) (i m : Nat)
    (hshape : s.drop i =
      'm' :: 'o' :: 'd' :: 'u' :: 'l' :: 'e' :: ' ' :: 'f' :: 'o' :: 'o' :: '(' ::rest)
    (hfind : findSub kwEndmodule s (i + 6 + 1 + 3 + 0 + 1) = some m) :
    modAttempt s i = some (sliceStr s i (m + 9)) := by
  have hd6 : s.drop (i + 6) = ' ' :: 'f' :: 'o' :: 'o' :: '(' :: rest := by
    rw [← List.drop_drop, hshape]; rfl
  have hd7 : s.drop (i + 6 + 1) = 'f' :: 'o' :: 'o' :: '(' :: rest := by
    rw [← List.drop_drop, hd6]; rfl
  have hd10 : s.drop (i + 6 + 1 + 3) = '(' :: rest := by
    rw [← List.drop_drop, hd7]; rfl
  have hpre : List.isPrefixOf kwModule (s.drop i) = true := by rw [hshape]; rfl
  have hw : countWhile pyIsSpace (s.drop (i + 6)) = 1 := by rw [hd6]; rfl
  have hu : countWhile pyIsWord (s.drop (i + 6 + 1)) = 3 := by rw [hd7]; rfl
  have hv : countWhile pyIsSpace (s.drop (i + 6 + 1 + 3)) = 0 := by rw [hd10]; rfl
  have hpar : s[i + 6 + 1 + 3 + 0]? = some '(' := by
    rw [← List.getElem?_drop, hd10]
    simp
  simp only [modAttempt]
  rw [if_pos hpre, hw, if_neg (by omega : ¬ (1 = 0)), hu, if_neg (by omega : ¬ (3 = 0)),
    hv, if_pos hpar, hfind]

theorem mnAttempt_at_head (s rest : List Char) (i : Nat)
    (hshape : s.drop i =
      'm' :: 'o' :: 'd' :: 'u' :: 'l' :: 'e' :: ' ' :: 'f' :: 'o' :: 'o' :: '(' ::rest) :
    mnAttempt s i = some (sliceStr s (i + 6 + 1) (i + 6 + 1 + 3)) := by
  have hd6 : s.drop (i + 6) = ' ' :: 'f' :: 'o' :: 'o' :: '(' :: rest := by
    rw [← List.drop_drop, hshape]; rfl
  have hd7 : s.drop (i + 6 + 1) = 'f' :: 'o' :: 'o' :: '(' :: rest := by
    rw [← List.drop_drop, hd6]; rfl
  have hpre : List.isPrefixOf kwModule (s.drop i) = true := by rw [hshape]; rfl
  have hw : countWhile pyIsSpace (s.drop (i + 6)) = 1 := by rw [hd6]; rfl
  have hu : countWhile pyIsWord (s.drop (i + 6 + 1)) = 3 := by rw [hd7]; rfl
  simp only [mnAttempt]
  rw [if_pos hpre, hw, if_neg (by omega : ¬ (1 = 0)), hu, if_neg (by omega : ¬ (3 = 0))]

/-- An answer string consisting of a fenced systemverilog block whose body
starts with `module foo(`; `body` is everything between the opening
parenthesis and the final `endmodule`. -/
def svExample (body : List Char) : List Char :=
  "```systemverilog\nmodule foo(".data ++ body ++ "endmodule\n```".data

set_option maxHeartbeats 4000000 in
theorem svExample_modAttempt_below17 (body : List Char) :
    ∀ j < 17, modAttempt (svExample body) j = none := by
  intro j hj
  interval_cases j <;> rfl


set_option maxHeartbeats 1600000 in
/-- C4: for an answer string consisting of a fenced systemverilog block
whose content is `module foo(<body>endmodule` (the body containing no
backtick and no earlier `endmodule`), the extraction pipeline yields code
starting with `module foo`, the derived module name is `foo`, and that
name is the prefix of the output filename. -/
theorem claim_C4_fenced_sv_block (body key file : List Char)
    (hbt : '`' ∉ body)
    (hem : findSub kwEndmodule (body ++ kwEndmodule) 0 = some body.length) :
    List.isPrefixOf "module foo".data (extractAnswer (svExample body)) = true ∧
    extract_module_name (extractAnswer (svExample body)) = "foo".data ∧
    List.isPrefixOf "foo".data
      (convertFilename (extract_module_name (extractAnswer (svExample body))) key file)
      = true := by
  have h28 : ("```systemverilog\nmodule foo(".data).length = 28 := rfl
  have hform : svExample body =
      "```systemverilog\nmodule foo(".data ++ (body ++ "endmodule\n```".data) := by
    rw [svExample, List.append_assoc]
  have hlen : (svExample body).length = 41 + body.length := by
    rw [svExample, List.length_append, List.length_append, h28,
      show ("endmodule\n```".data).length = 13 from rfl]
    omega
  have hdrop17 : (svExample body).drop 17 =
      'm' :: 'o' :: 'd' :: 'u' :: 'l' :: 'e' :: ' ' :: 'f' :: 'o' :: 'o' :: '(' ::
        (body ++ "endmodule\n```".data) := rfl
  have hocc : List.isPrefixOf kwEndmodule ((svExample body).drop (28 + body.length)) = true := by
    rw [hform, List.drop_append_eq_append_drop,
      List.drop_eq_nil_of_le (by rw [h28]; omega), List.nil_append, h28,
      show 28 + body.length - 28 = body.length by omega, List.drop_left]
    decide
  have hmin2 : ∀ j, 28 ≤ j → j < 28 + body.length →
      List.isPrefixOf kwEndmodule ((svExample body).drop j) = false := by
    intro j hj1 hj2
    by_cases hp : List.isPrefixOf kwEndmodule ((svExample body).drop j) = true
    · exfalso
      have hdj : (svExample body).drop j =
          (body ++ "endmodule\n```".data).drop (j - 28) := by
        rw [hform, List.drop_append_eq_append_drop,
          List.drop_eq_nil_of_le (by rw [h28]; omega), List.nil_append, h28]
      rw [hdj, show ("endmodule\n```".data : List Char) = kwEndmodule ++ "\n```".data from rfl,
        ← List.append_assoc] at hp
      have hre : List.isPrefixOf kwEndmodule ((body ++ kwEndmodule).drop (j - 28)) = true := by
        apply occ_restrict _ _ ("\n```".data) _ _ hp
        rw [List.length_append, show (kwEndmodule : List Char).length = 9 from rfl]
        omega
      obtain ⟨-, -, hminem⟩ := findSub_eq_some _ _ _ _ hem
      have hfalse := hminem (j - 28) (by omega) (by omega)
      rw [hfalse] at hre
      exact absurd hre (by simp)
    · exact Bool.eq_false_iff.mpr hp
  have hfind : findSub kwEndmodule (svExample body) 28 = some (28 + body.length) := by
    apply findSub_eq_some_of
    · omega
    · exact hocc
    · omega
    · exact hmin2
  have hfind17 : findSub kwEndmodule (svExample body) (17 + 6 + 1 + 3 + 0 + 1) =
      some (28 + body.length) := by
    rw [show 17 + 6 + 1 + 3 + 0 + 1 = 28 from rfl]
    exact hfind
  have hatt := modAttempt_at_head (svExample body) (body ++ "endmodule\n```".data) 17
    (28 + body.length) hdrop17 hfind17
  have hms : modSearch (svExample body) =
      some (sliceStr (svExample body) 17 (28 + body.length + 9)) := by
    rw [modSearch]
    apply firstSomeFrom_eq_some_of _ _ _ 17
    · omega
    · rw [Nat.zero_add]; exact hatt
    · intro j hj
      rw [Nat.zero_add]
      exact svExample_modAttempt_below17 body j hj
  have hdropApp : (svExample body).drop 17 =
      "module foo(".data ++ (body ++ "endmodule\n```".data) := rfl
  have hspan : sliceStr (svExample body) 17 (28 + body.length + 9) =
      "module foo(".data ++ (body ++ kwEndmodule) := by
    rw [sliceStr, hdropApp,
      show 28 + body.length + 9 - 17 = ("module foo(".data).length + (body.length + 9) from by
        rw [show ("module foo(".data).length = 11 from rfl]; omega,
      List.take_append, List.take_append]
    rfl
  have hstrip : stripL ("module foo(".data ++ (body ++ kwEndmodule)) =
      "module foo(".data ++ (body ++ kwEndmodule) := by
    apply stripL_eq_self
    · exact ⟨'m', "odule foo(".data ++ (body ++ kwEndmodule), rfl, by decide⟩
    · refine ⟨'e', ?_, by decide⟩
      rw [show ("module foo(".data ++ (body ++ kwEndmodule) : List Char) =
        ("module foo(".data ++ body) ++ kwEndmodule from by rw [List.append_assoc],
        List.getLast?_append_of_ne_nil _ (by decide)]
      rfl
  have hraw : extractRaw (svExample body) = "module foo(".data ++ (body ++ kwEndmodule) := by
    simp only [extractRaw]
    rw [hms]
    rw [hspan]
    exact hstrip
  have hnotmem : '`' ∉ "module foo(".data ++ (body ++ kwEndmodule) := by
    intro hmem
    rcases List.mem_append.mp hmem with h1 | h2
    · exact absurd h1 (by decide)
    · rcases List.mem_append.mp h2 with h3 | h4
      · exact hbt h3
      · exact absurd h4 (by decide)
  have htrunc : extract_code_until_endmodule ("module foo(".data ++ (body ++ kwEndmodule)) =
      "module foo(".data ++ (body ++ kwEndmodule) := by
    rw [extract_code_until_endmodule]
    have hnf : findSub "\n```".data
        (("module foo(".data ++ (body ++ kwEndmodule)).map Char.toLower) 0 = none := by
      cases hf : findSub "\n```".data
          (("module foo(".data ++ (body ++ kwEndmodule)).map Char.toLower) 0 with
      | none => rfl
      | some p =>
        exfalso
        obtain ⟨-, hocc2, -⟩ := findSub_eq_some _ _ _ _ hf
        obtain ⟨t, ht⟩ := (isPrefixOf_iff_append _ _).mp hocc2
        have hch1 : ((("module foo(".data ++ (body ++ kwEndmodule)).map Char.toLower).drop p)[1]?
            = some '`' := by
          rw [ht, show ("\n```".data ++ t : List Char) = '\n' :: '`' :: '`' :: '`' :: t from rfl]
          simp
        rw [List.getElem?_drop, List.getElem?_map] at hch1
        cases hsg : ("module foo(".data ++ (body ++ kwEndmodule))[p + 1]? with
        | none => rw [hsg] at hch1; simp at hch1
        | some c =>
          rw [hsg] at hch1
          have hch2 : Char.toLower c = '`' := by simpa using hch1
          have hcb : c = '`' := toLower_eq_backtick c hch2
          subst hcb
          exact hnotmem (List.getElem?_mem hsg)
    rw [hnf]
    exact hstrip
  have hcode : extractAnswer (svExample body) = "module foo(".data ++ (body ++ kwEndmodule) := by
    rw [extractAnswer, hraw]
    exact htrunc
  have hshape0 : ("module foo(".data ++ (body ++ kwEndmodule)).drop 0 =
      'm' :: 'o' :: 'd' :: 'u' :: 'l' :: 'e' :: ' ' :: 'f' :: 'o' :: 'o' :: '(' ::(body ++ kwEndmodule) := rfl
  have hma := mnAttempt_at_head ("module foo(".data ++ (body ++ kwEndmodule))
    (body ++ kwEndmodule) 0 hshape0
  have hslice3 : sliceStr ("module foo(".data ++ (body ++ kwEndmodule))
      (0 + 6 + 1) (0 + 6 + 1 + 3) = "foo".data := rfl
  have hmn : extract_module_name ("module foo(".data ++ (body ++ kwEndmodule)) = "foo".data := by
    rw [extract_module_name]
    have hfs : firstSomeFrom (mnAttempt ("module foo(".data ++ (body ++ kwEndmodule))) 0
        (("module foo(".data ++ (body ++ kwEndmodule)).length + 1) = some ("foo".data) := by
      apply firstSomeFrom_eq_some_of _ _ _ 0
      · omega
      · rw [Nat.add_zero, hma, hslice3]
      · intro j hj
        omega
    rw [hfs]
  refine ⟨?_, ?_, ?_⟩
  · rw [hcode, show ("module foo(".data : List Char) = "module foo".data ++ "(".data from rfl,
      List.append_assoc]
    exact isPrefixOf_append_left _ _
  · rw [hcode]
    exact hmn
  · rw [hcode, hmn, convertFilename]
    simp only [List.append_assoc]
    exact isPrefixOf_append_left _ _

theorem claim_C4_fenced_sv_block_witness :
    ('`' ∉ "a, b); assign b = a; ".data) ∧
    findSub kwEndmodule ("a, b); assign b = a; ".data ++ kwEndmodule) 0 =
      some ("a, b); assign b = a; ".data).length ∧
    (List.isPrefixOf "module foo".data
        (extractAnswer (svExample "a, b); assign b = a; ".data)) = true ∧
      extract_module_name (extractAnswer (svExample "a, b); assign b = a; ".data)) = "foo".data ∧
      List.isPrefixOf "foo".data
        (convertFilename
          (extract_module_name (extractAnswer (svExample "a, b); assign b = a; ".data)))
          "answer_0".data "i2c_easy_gpt4_RAGTrue.json".data) = true) :=
  ⟨by decide, by decide,
    claim_C4_fenced_sv_block "a, b); assign b = a; ".data
      "answer_0".data "i2c_easy_gpt4_RAGTrue.json".data (by decide) (by decide)⟩

theorem claim_C9_default_module_name_witness :
    containsSub fence3 "hello world".data = false ∧
    containsSub kwModule "hello world".data = false ∧
    extract_module_name (extractAnswer "hello world".data) = "unknown_module".data :=
  ⟨by decide, by decide,
    claim_C9_default_module_name "hello world".data (by decide) (by decide)⟩

-- ## Embedding of src/prompt.py

/-- Outcome of one HTTP POST of the alias branch: status code, the parsed
message content (used on status 200), and the raw response text. -/
structure HttpResp where
  status : Nat
  content : List Char
  text : List Char

/-- Decimal rendering of a prompt index, as Python's f-string does. -/
def natChars (n : Nat) : List Char := (Nat.repr n).data

def promptKey (i : Nat) : List Char := "prompt_".data ++ natChars i

def answerKey (i : Nat) : List Char := "answer_".data ++ natChars i

/-- The per-branch enumeration loop of `prompt_gpt`: for each prompt, store
`prompt_i` and then `answer_i` computed by the branch's answer function
(dict insertion order of the Python `ans_dict`). -/
def mkRecord (ans : Nat → List Char → List Char) :
    Nat → List (List Char) → List (List Char × List Char)
  | _, [] => []
  | i, p :: ps => (promptKey i, p) :: (answerKey i, ans i p) :: mkRecord ans (i + 1) ps

/-- Alias branch answer: the message content on HTTP 200, otherwise the
inline `Error: <status> - <text>` string (src/prompt.py lines 117-123). -/
def aliasAnswer (r : HttpResp) : List Char :=
  if r.status = 200 then r.content
  else "Error: ".data ++ natChars r.status ++ " - ".data ++ r.text

/-- A `try/except` branch: the answer on success, otherwise the branch's
error prefix followed by the exception text. -/
def catchAnswer (errPre : List Char) (r : Except (List Char) (List Char)) : List Char :=
  match r with
  | .ok a => a
  | .error e => errPre ++ e

/-- The ollama branch additionally strips the successful answer
(src/prompt.py line 233). -/
def ollamaAnswer (r : Except (List Char) (List Char)) : List Char :=
  match r with
  | .ok a => stripL a
  | .error e => "Ollama Error: ".data ++ e

/-- The network oracles of the six backends: what each request returns, or
the exception it raises, for prompt index `i` with prompt text `p`.  The
alias branch's `requests.post` (src/prompt.py line 117) can either return
an `HttpResp` or raise — and that branch has no `try/except`, so a raised
exception is not handled there. -/
structure Backends where
  aliasReq : Nat → List Char → Except (List Char) HttpResp
  geminiReq : Nat → List Char → Except (List Char) (List Char)
  openrouterReq : Nat → List Char → Except (List Char) (List Char)
  openaiReq : Nat → List Char → Except (List Char) (List Char)
  claudeReq : Nat → List Char → Except (List Char) (List Char)
  ollamaReq : Nat → List Char → Except (List Char) (List Char)

/-- The alias-branch enumeration loop: each iteration performs its request
with NO `try/except` around it, so an exception raised at any iteration
propagates immediately — the loop is abandoned and no record is returned
(the partially built dict is lost with the stack frame). -/
def mkRecordE (ans : Nat → List Char → Except (List Char) (List Char)) :
    Nat → List (List Char) → Except (List Char) (List (List Char × List Char))
  | _, [] => .ok []
  | i, p :: ps =>
    match ans i p with
    | .error e => .error e
    | .ok a =>
      match mkRecordE ans (i + 1) ps with
      | .error e => .error e
      | .ok rest => .ok ((promptKey i, p) :: (answerKey i, a) :: rest)

/-- The alias branch of `prompt_gpt` (src/prompt.py lines 95-123): a
returned response is rendered by `aliasAnswer` (inline `Error: ...` string
on non-200 status); an exception from the request itself propagates and
aborts the whole call. -/
def prompt_gpt_alias (b : Backends) (prompts : List (List Char)) :
    Except (List Char) (List (List Char × List Char)) :=
  mkRecordE (fun i p => (b.aliasReq i p).map aliasAnswer) 0 prompts

def prompt_gpt_gemini (b : Backends) (prompts : List (List Char)) :
    List (List Char × List Char) :=
  mkRecord (fun i p => catchAnswer "Gemini API Error: ".data (b.geminiReq i p)) 0 prompts

def prompt_gpt_openrouter (b : Backends) (prompts : List (List Char)) :
    List (List Char × List Char) :=
  mkRecord (fun i p => catchAnswer "OpenRouter Error: ".data (b.openrouterReq i p)) 0 prompts

def prompt_gpt_openai (b : Backends) (prompts : List (List Char)) :
    List (List Char × List Char) :=
  mkRecord (fun i p => catchAnswer "OpenAI Error: ".data (b.openaiReq i p)) 0 prompts

def prompt_gpt_claude (b : Backends) (prompts : List (List Char)) :
    List (List Char × List Char) :=
  mkRecord (fun i p => catchAnswer "Claude API Error: ".data (b.claudeReq i p)) 0 prompts

def prompt_gpt_ollama (b : Backends) (prompts : List (List Char)) :
    List (List Char × List Char) :=
  mkRecord (fun i p => ollamaAnswer (b.ollamaReq i p)) 0 prompts

/-- `prompt_gpt` of src/prompt.py: dispatch by substring match on the model
name, in source order; an unrecognised model name raises `ValueError`. -/
def prompt_gpt (b : Backends) (model_name : List Char) (prompts : List (List Char)) :
    Except (List Char) (List (List Char × List Char)) :=
  if containsSub "alias".data model_name then prompt_gpt_alias b prompts
  else if containsSub "gemini".data model_name then .ok (prompt_gpt_gemini b prompts)
  else if containsSub "deepcoder".data model_name || containsSub "agentica".data model_name then
    .ok (prompt_gpt_openrouter b prompts)
  else if containsSub "gpt".data model_name || containsSub "o3".data model_name then
    .ok (prompt_gpt_openai b prompts)
  else if containsSub "claude".data model_name then .ok (prompt_gpt_claude b prompts)
  else if containsSub "qwen".data model_name || containsSub "code".data model_name ||
      containsSub "deepseek".data model_name then
    .ok (prompt_gpt_ollama b prompts)
  else .error ("Unsupported model name: ".data ++ model_name)

-- ## mkRecord lemmas

theorem mkRecord_length (ans : Nat → List Char → List Char) :
    ∀ (ps : List (List Char)) (k : Nat), (mkRecord ans k ps).length = 2 * ps.length := by
  intro ps
  induction ps with
  | nil => intro k; rfl
  | cons p ps ih =>
    intro k
    simp only [mkRecord, List.length_cons, ih (k + 1)]
    omega

theorem mkRecord_getElem_answer (ans : Nat → List Char → List Char) :
    ∀ (ps : List (List Char)) (k i : Nat) (p : List Char), ps[i]? = some p →
      (mkRecord ans k ps)[2 * i + 1]? = some (answerKey (k + i), ans (k + i) p) := by
  intro ps
  induction ps with
  | nil => intro k i p hp; simp at hp
  | cons q ps ih =>
    intro k i p hp
    cases i with
    | zero =>
      simp only [List.getElem?_cons_zero] at hp
      injection hp with hp
      subst hp
      simp [mkRecord]
    | succ i =>
      simp only [List.getElem?_cons_succ] at hp
      have harith : 2 * (i + 1) + 1 = (2 * i + 1) + 1 + 1 := by omega
      rw [harith]
      simp only [mkRecord, List.getElem?_cons_succ]
      rw [ih (k + 1) i p hp, show k + 1 + i = k + (i + 1) by omega]

theorem mkRecord_keys (ans : Nat → List Char → List Char) :
    ∀ (ps : List (List Char)) (k : Nat),
      (mkRecord ans k ps).map Prod.fst =
        (List.range ps.length).flatMap (fun i => [promptKey (k + i), answerKey (k + i)]) := by
  intro ps
  induction ps with
  | nil => intro k; rfl
  | cons p ps ih =>
    intro k
    have hfun : (fun i => [promptKey (k + (i + 1)), answerKey (k + (i + 1))]) =
        (fun i => [promptKey (k + 1 + i), answerKey (k + 1 + i)]) := by
      funext i
      rw [show k + (i + 1) = k + 1 + i by omega]
    rw [List.length_cons, List.range_succ_eq_map, List.flatMap_cons, List.flatMap_map]
    simp only [Nat.add_zero]
    rw [show (mkRecord ans k (p :: ps)).map Prod.fst =
      promptKey k :: answerKey k :: (mkRecord ans (k + 1) ps).map Prod.fst from rfl]
    rw [ih (k + 1), ← hfun]
    rfl

theorem mkRecordE_eq_ok (ans : Nat → List Char → Except (List Char) (List Char))
    (f : Nat → List Char → List Char)
    (hall : ∀ j q, ans j q = .ok (f j q)) :
    ∀ (ps : List (List Char)) (k : Nat), mkRecordE ans k ps = .ok (mkRecord f k ps) := by
  intro ps
  induction ps with
  | nil => intro k; rfl
  | cons p ps ih =>
    intro k
    simp only [mkRecordE, hall k p, ih (k + 1), mkRecord]

theorem mkRecordE_keys (ans : Nat → List Char → Except (List Char) (List Char)) :
    ∀ (ps : List (List Char)) (k : Nat) (rec : List (List Char × List Char)),
      mkRecordE ans k ps = .ok rec →
      rec.map Prod.fst =
        (List.range ps.length).flatMap (fun i => [promptKey (k + i), answerKey (k + i)]) := by
  intro ps
  induction ps with
  | nil =>
    intro k rec h
    simp only [mkRecordE] at h
    injection h with h
    rw [← h]
    rfl
  | cons p ps ih =>
    intro k rec h
    simp only [mkRecordE] at h
    split at h
    case h_1 => exact absurd h (by simp)
    case h_2 a heq =>
      split at h
      case h_1 => exact absurd h (by simp)
      case h_2 rest heq2 =>
        injection h with h
        rw [← h]
        have hfun : (fun i => [promptKey (k + (i + 1)), answerKey (k + (i + 1))]) =
            (fun i => [promptKey (k + 1 + i), answerKey (k + 1 + i)]) := by
          funext i
          rw [show k + (i + 1) = k + 1 + i by omega]
        rw [List.length_cons, List.range_succ_eq_map, List.flatMap_cons, List.flatMap_map]
        simp only [Nat.add_zero]
        rw [List.map_cons, List.map_cons, ih (k + 1) rest heq2, ← hfun]
        rfl

-- ## Claims C2, C3, C7 about prompt_gpt

/-- Backends whose alias request raises an exception (a `requests.post`
connection failure in the branch that has no `try/except`). -/
def crashingBackends : Backends where
  aliasReq := fun _ _ => .error "ConnectionError: connection refused".data
  geminiReq := fun _ _ => .error "boom".data
  openrouterReq := fun _ _ => .error "boom".data
  openaiReq := fun _ _ => .error "boom".data
  claudeReq := fun _ _ => .error "boom".data
  ollamaReq := fun _ _ => .error "boom".data

/-- C2 counterexample: the alias branch is a supported branch of
`prompt_gpt` (selected here by the default model name `alias-code`), yet a
request failure for its first prompt is NOT caught for that prompt alone —
the exception propagates and the whole two-prompt call aborts: no error
string is stored in place of the answer and no response record is produced
for either prompt, refuting the claim quantified over every supported
branch. -/
theorem claim_C2_alias_uncaught_abort :
    prompt_gpt crashingBackends "alias-code".data ["p".data, "q".data] =
      .error "ConnectionError: connection refused".data ∧
    (prompt_gpt crashingBackends "alias-code".data ["p".data, "q".data]).toOption = none :=
  ⟨rfl, rfl⟩

/-- C2 (amended): in each branch that wraps its request in `try/except`
(gemini, openrouter, openai, claude, ollama), a failing request for one
prompt is caught for that prompt alone — the branch's inline error string
is stored in place of that answer — and processing continues with the
remaining prompts of the batch (the record keeps all `2 * n` entries; no
retry, no rollback).  The alias branch has no `try/except`: when every
request returns a response, a non-200 status is rendered as an inline
`Error: <status> - <text>` answer with processing continuing, but an
exception raised by a request propagates and aborts the whole call with no
record. -/
theorem claim_C2_branch_error_handling
    (prompts : List (List Char)) (i : Nat) (p e : List Char)
    (hp : prompts[i]? = some p) (b : Backends)
    (hgem : b.geminiReq i p = .error e)
    (hor : b.openrouterReq i p = .error e)
    (hoa : b.openaiReq i p = .error e)
    (hcl : b.claudeReq i p = .error e)
    (hol : b.ollamaReq i p = .error e)
    (resp : Nat → List Char → HttpResp)
    (hok : ∀ j q, b.aliasReq j q = .ok (resp j q))
    (hst : (resp i p).status ≠ 200)
    (b2 : Backends) (p0 e0 : List Char) (rest : List (List Char))
    (hcrash : b2.aliasReq 0 p0 = .error e0) :
    ((prompt_gpt_gemini b prompts).length = 2 * prompts.length ∧
      (prompt_gpt_gemini b prompts)[2 * i + 1]? =
        some (answerKey i, "Gemini API Error: ".data ++ e)) ∧
    ((prompt_gpt_openrouter b prompts).length = 2 * prompts.length ∧
      (prompt_gpt_openrouter b prompts)[2 * i + 1]? =
        some (answerKey i, "OpenRouter Error: ".data ++ e)) ∧
    ((prompt_gpt_openai b prompts).length = 2 * prompts.length ∧
      (prompt_gpt_openai b prompts)[2 * i + 1]? =
        some (answerKey i, "OpenAI Error: ".data ++ e)) ∧
    ((prompt_gpt_claude b prompts).length = 2 * prompts.length ∧
      (prompt_gpt_claude b prompts)[2 * i + 1]? =
        some (answerKey i, "Claude API Error: ".data ++ e)) ∧
    ((prompt_gpt_ollama b prompts).length = 2 * prompts.length ∧
      (prompt_gpt_ollama b prompts)[2 * i + 1]? =
        some (answerKey i, "Ollama Error: ".data ++ e)) ∧
    (prompt_gpt_alias b prompts =
        .ok (mkRecord (fun j q => aliasAnswer (resp j q)) 0 prompts) ∧
      (mkRecord (fun j q => aliasAnswer (resp j q)) 0 prompts).length = 2 * prompts.length ∧
      (mkRecord (fun j q => aliasAnswer (resp j q)) 0 prompts)[2 * i + 1]? =
        some (answerKey i, "Error: ".data ++ natChars (resp i p).status ++
          " - ".data ++ (resp i p).text)) ∧
    prompt_gpt_alias b2 (p0 :: rest) = .error e0 := by
  refine ⟨⟨?_, ?_⟩, ⟨?_, ?_⟩, ⟨?_, ?_⟩, ⟨?_, ?_⟩, ⟨?_, ?_⟩, ⟨?_, ?_, ?_⟩, ?_⟩
  · exact mkRecord_length _ prompts 0
  · rw [prompt_gpt_gemini, mkRecord_getElem_answer _ prompts 0 i p hp, Nat.zero_add,
      hgem]
    rfl
  · exact mkRecord_length _ prompts 0
  · rw [prompt_gpt_openrouter, mkRecord_getElem_answer _ prompts 0 i p hp, Nat.zero_add,
      hor]
    rfl
  · exact mkRecord_length _ prompts 0
  · rw [prompt_gpt_openai, mkRecord_getElem_answer _ prompts 0 i p hp, Nat.zero_add,
      hoa]
    rfl
  · exact mkRecord_length _ prompts 0
  · rw [prompt_gpt_claude, mkRecord_getElem_answer _ prompts 0 i p hp, Nat.zero_add,
      hcl]
    rfl
  · exact mkRecord_length _ prompts 0
  · rw [prompt_gpt_ollama, mkRecord_getElem_answer _ prompts 0 i p hp, Nat.zero_add,
      hol]
    rfl
  · rw [prompt_gpt_alias]
    exact mkRecordE_eq_ok _ _ (fun j q => by rw [hok j q]; rfl) prompts 0
  · exact mkRecord_length _ prompts 0
  · rw [mkRecord_getElem_answer _ prompts 0 i p hp, Nat.zero_add, aliasAnswer,
      if_neg hst]
  · simp [prompt_gpt_alias, mkRecordE, hcrash, Except.map]

/-- A fixed family of failing backends used to witness the error-handling
claims on a concrete input: every `try/except` branch's request raises,
and the alias request returns an HTTP 500 response. -/
def witnessBackends : Backends where
  aliasReq := fun _ _ => .ok ⟨500, [], "bad gateway".data⟩
  geminiReq := fun _ _ => .error "boom".data
  openrouterReq := fun _ _ => .error "boom".data
  openaiReq := fun _ _ => .error "boom".data
  claudeReq := fun _ _ => .error "boom".data
  ollamaReq := fun _ _ => .error "boom".data

theorem claim_C2_branch_error_handling_witness :
    ((prompt_gpt_gemini witnessBackends ["p".data]).length = 2 * 1 ∧
      (prompt_gpt_gemini witnessBackends ["p".data])[1]? =
        some (answerKey 0, "Gemini API Error: boom".data)) ∧
    ((prompt_gpt_openrouter witnessBackends ["p".data]).length = 2 * 1 ∧
      (prompt_gpt_openrouter witnessBackends ["p".data])[1]? =
        some (answerKey 0, "OpenRouter Error: boom".data)) ∧
    ((prompt_gpt_openai witnessBackends ["p".data]).length = 2 * 1 ∧
      (prompt_gpt_openai witnessBackends ["p".data])[1]? =
        some (answerKey 0, "OpenAI Error: boom".data)) ∧
    ((prompt_gpt_claude witnessBackends ["p".data]).length = 2 * 1 ∧
      (prompt_gpt_claude witnessBackends ["p".data])[1]? =
        some (answerKey 0, "Claude API Error: boom".data)) ∧
    ((prompt_gpt_ollama witnessBackends ["p".data]).length = 2 * 1 ∧
      (prompt_gpt_ollama witnessBackends ["p".data])[1]? =
        some (answerKey 0, "Ollama Error: boom".data)) ∧
    (prompt_gpt_alias witnessBackends ["p".data] =
        .ok (mkRecord (fun j q => aliasAnswer (⟨500, [], "bad gateway".data⟩ : HttpResp))
          0 ["p".data]) ∧
      (mkRecord (fun j q => aliasAnswer (⟨500, [], "bad gateway".data⟩ : HttpResp))
        0 ["p".data]).length = 2 * 1 ∧
      (mkRecord (fun j q => aliasAnswer (⟨500, [], "bad gateway".data⟩ : HttpResp))
        0 ["p".data])[1]? =
        some (answerKey 0, "Error: 500 - bad gateway".data)) ∧
    prompt_gpt_alias crashingBackends ("p0".data :: []) =
      .error "ConnectionError: connection refused".data :=
  claim_C2_branch_error_handling ["p".data] 0 "p".data "boom".data rfl
    witnessBackends rfl rfl rfl rfl rfl
    (fun _ _ => ⟨500, [], "bad gateway".data⟩) (fun _ _ => rfl) (by decide)
    crashingBackends "p0".data "ConnectionError: connection refused".data [] rfl

/-- C3: every response record returned by `prompt_gpt` on a list of `n`
prompts has exactly the keys `prompt_0, answer_0, ..., prompt_{n-1},
answer_{n-1}` — a contiguous zero-based index sequence. -/
theorem claim_C3_keys_contiguous (b : Backends) (model_name : List Char)
    (prompts : List (List Char)) (rec : List (List Char × List Char))
    (h : prompt_gpt b model_name prompts = .ok rec) :
    rec.map Prod.fst =
      (List.range prompts.length).flatMap (fun i => [promptKey i, answerKey i]) := by
  rw [prompt_gpt] at h
  split at h
  · rw [prompt_gpt_alias] at h
    have hk := mkRecordE_keys _ prompts 0 rec h
    simpa only [Nat.zero_add] using hk
  · split at h
    · injection h with h
      rw [← h, prompt_gpt_gemini, mkRecord_keys]
      simp only [Nat.zero_add]
    · split at h
      · injection h with h
        rw [← h, prompt_gpt_openrouter, mkRecord_keys]
        simp only [Nat.zero_add]
      · split at h
        · injection h with h
          rw [← h, prompt_gpt_openai, mkRecord_keys]
          simp only [Nat.zero_add]
        · split at h
          · injection h with h
            rw [← h, prompt_gpt_claude, mkRecord_keys]
            simp only [Nat.zero_add]
          · split at h
            · injection h with h
              rw [← h, prompt_gpt_ollama, mkRecord_keys]
              simp only [Nat.zero_add]
            · exact absurd h (by simp)

theorem claim_C3_keys_contiguous_witness :
    (prompt_gpt witnessBackends "gemini-2.0".data ["p".data, "q".data] =
      .ok (prompt_gpt_gemini witnessBackends ["p".data, "q".data])) ∧
    (prompt_gpt_gemini witnessBackends ["p".data, "q".data]).map Prod.fst =
      (List.range 2).flatMap (fun i => [promptKey i, answerKey i]) :=
  ⟨rfl,
    claim_C3_keys_contiguous witnessBackends "gemini-2.0".data
      ["p".data, "q".data] _ rfl⟩

/-- C7: a model name containing none of the recognised backend substrings
makes `prompt_gpt` fail the whole call with the `Unsupported model name`
error, before any prompt is dispatched: no response record is produced. -/
theorem claim_C7_unknown_model (b : Backends) (model_name : List Char)
    (prompts : List (List Char))
    (h1 : containsSub "alias".data model_name = false)
    (h2 : containsSub "gemini".data model_name = false)
    (h3 : containsSub "deepcoder".data model_name = false)
    (h4 : containsSub "agentica".data model_name = false)
    (h5 : containsSub "gpt".data model_name = false)
    (h6 : containsSub "o3".data model_name = false)
    (h7 : containsSub "claude".data model_name = false)
    (h8 : containsSub "qwen".data model_name = false)
    (h9 : containsSub "code".data model_name = false)
    (h10 : containsSub "deepseek".data model_name = false) :
    prompt_gpt b model_name prompts =
      .error ("Unsupported model name: ".data ++ model_name) := by
  simp [prompt_gpt, h1, h2, h3, h4, h5, h6, h7, h8, h9, h10]

theorem claim_C7_unknown_model_witness :
    prompt_gpt witnessBackends "mistral-7b".data ["p".data] =
      .error ("Unsupported model name: ".data ++ "mistral-7b".data) :=
  claim_C7_unknown_model witnessBackends "mistral-7b".data ["p".data]
    (by decide) (by decide) (by decide) (by decide) (by decide) (by decide)
    (by decide) (by decide) (by decide) (by decide)

-- ## Embedding of src/rpt.py

/-- A parsed metrics record (one row of `parse_metrics`). -/
structure MRec where
  File : List Char
  Protocol : List Char
  LLM : List Char
  RAG : List Char
  Lint : List Char
  Synthesis : List Char
  Timing : List Char
  Power : List Char
  Area : List Char
deriving DecidableEq

/-- Python `s.replace(pat, "")` for a non-empty pattern: non-overlapping,
left to right. -/
def removeAllSub (pat : List Char) : List Char → List Char
  | [] => []
  | c :: cs =>
    if h : pat ≠ [] ∧ pat.isPrefixOf (c :: cs) then
      removeAllSub pat ((c :: cs).drop pat.length)
    else c :: removeAllSub pat cs
termination_by s => s.length
decreasing_by
  · simp only [List.length_drop, List.length_cons]
    have : 0 < pat.length := List.length_pos.mpr h.1
    omega
  · simp

/-- The `[0-9]` character class. -/
def digitB (c : Char) : Bool := '0' ≤ c && c ≤ '9'

/-- Match attempt at `i` of `re.search(r'([0-9]+\.[0-9]+e[-+][0-9]+)', line)`
(the power token).  Each greedy `[0-9]+` takes its maximal run: a shorter
run would have to be followed by `.`/`e`/end at a digit position, which is
impossible, so no other backtracking split can match. -/
def powerAttempt (ln : List Char) (i : Nat) : Option (List Char) :=
  let d1 := countWhile digitB (ln.drop i)
  if d1 = 0 then none
  else if ln[i + d1]? = some '.' then
    let d2 := countWhile digitB (ln.drop (i + d1 + 1))
    if d2 = 0 then none
    else if ln[i + d1 + 1 + d2]? = some 'e' then
      match ln[i + d1 + 1 + d2 + 1]? with
      | some c =>
        if c = '+' || c = '-' then
          let d3 := countWhile digitB (ln.drop (i + d1 + 1 + d2 + 2))
          if d3 = 0 then none
          else some (sliceStr ln i (i + d1 + 1 + d2 + 2 + d3))
        else none
      | none => none
    else none
  else none

def powerSearch (ln : List Char) : Option (List Char) :=
  firstSomeFrom (powerAttempt ln) 0 (ln.length + 1)

/-- Match attempt at `i` of `re.search(r'([0-9]+)\s*µm²', ln)` (the area
token); `group(1)` is the digit run. -/
def areaAttempt (ln : List Char) (i : Nat) : Option (List Char) :=
  let d1 := countWhile digitB (ln.drop i)
  if d1 = 0 then none
  else
    let w := countWhile pyIsSpace (ln.drop (i + d1))
    if List.isPrefixOf "µm²".data (ln.drop (i + d1 + w)) then
      some (sliceStr ln i (i + d1))
    else none

def areaSearch (ln : List Char) : Option (List Char) :=
  firstSomeFrom (areaAttempt ln) 0 (ln.length + 1)

/-- The per-ln classifier body of `parse_metrics` (src/rpt.py lines
27-54): each verdict is an independent if/elif chain over substring tests
of the stripped ln, and the power/area regexes update their fields when
they match. -/
def lineUpd (m : MRec) (line0 : List Char) : MRec :=
  let line := stripL line0
  let m1 :=
    if containsSub "No lint errors".data line then { m with Lint := "✓".data }
    else if containsSub "Lint warnings found".data line then { m with Lint := "⚠".data }
    else if containsSub "Verilator".data line && containsSub "ERROR".data line then
      { m with Lint := "✗".data }
    else m
  let m2 :=
    if containsSub "No synthesis errors".data line then { m1 with Synthesis := "✓".data }
    else if containsSub "Synthesis errors found".data line then { m1 with Synthesis := "✗".data }
    else m1
  let m3 :=
    if containsSub "Timing Met: YES".data line then { m2 with Timing := "✓".data }
    else if containsSub "Timing Met: NO".data line ||
        containsSub "Timing Not Met".data line then { m2 with Timing := "✗".data }
    else m2
  let m4 :=
    if containsSub "Total Power".data line then
      match powerSearch line with
      | some g => { m3 with Power := g }
      | none => m3
    else m3
  if containsSub "Chip Area".data line then
    match areaSearch line with
    | some g => { m4 with Area := g }
    | none => m4
  else m4

/-- `parse_metrics` of src/rpt.py: defaults, RAG flag from the file name,
then the per-line classifiers folded over the file's lines (`content` is
`none` when the metrics file does not exist). -/
def parse_metrics (fileBase protocol llm : List Char)
    (content : Option (List (List Char))) : MRec :=
  let file := removeAllSub "_metrics.txt".data fileBase
  let rag :=
    if containsSub "RAGTrue".data file then "True".data
    else if containsSub "RAGFalse".data file then "False".data
    else "Unknown".data
  let init : MRec :=
    ⟨file, protocol, llm, rag, "N/A".data, "N/A".data, "N/A".data, "N/A".data, "N/A".data⟩
  match content with
  | none => init
  | some lines => lines.foldl lineUpd init

/-- The lint-pass predicate of `generate_grouped_summary`
(src/rpt.py line 78): pass or warn both count as passing. -/
def lintPassB (m : MRec) : Bool := m.Lint == "✓".data || m.Lint == "⚠".data

/-- Round-half-to-even on a rational, the rounding used by the dataframe's
`.round` (numpy half-even), modelled exactly on rationals. -/
def roundHalfEvenZ (q : ℚ) : ℤ :=
  let n := ⌊q⌋
  let f := q - n
  if f < 1 / 2 then n else if 1 / 2 < f then n + 1 else if Even n then n else n + 1

/-- `.round(1)`: one decimal place. -/
def round1 (q : ℚ) : ℚ := (roundHalfEvenZ (q * 10) : ℚ) / 10

/-- The grouping key of `generate_grouped_summary` (src/rpt.py line 84). -/
def keyOf (m : MRec) : List Char × List Char × List Char := (m.LLM, m.RAG, m.Protocol)

/-- `Lint_Pass_Rate` of one group: the boolean mean of the lint-pass flags
times 100, rounded to one decimal (src/rpt.py lines 84-93). -/
def lintPassRate (g : List MRec) : ℚ :=
  round1 ((g.countP lintPassB : ℚ) / (g.length : ℚ) * 100)

/-- The distinct grouping keys of the record list. -/
def groupKeys (recs : List MRec) : List (List Char × List Char × List Char) :=
  (recs.map keyOf).dedup

/-- The records of one group. -/
def groupOf (recs : List MRec) (k : List Char × List Char × List Char) : List MRec :=
  recs.filter (fun m => decide (keyOf m = k))

/-- The `Lint_Pass_Rate` column of the grouped summary: one rate per
grouping key (row order immaterial to the claims; pandas sorts keys). -/
def summaryLintRates (recs : List MRec) :
    List ((List Char × List Char × List Char) × ℚ) :=
  (groupKeys recs).map (fun k => (k, lintPassRate (groupOf recs k)))

-- ## Claims C5 and C6 about the metrics aggregator

/-- C5: a group of two records with the same (LLM, RAG, Protocol) key, one
passing lint (pass or warn) and one failing, gets a lint pass rate of
exactly 50.0; the rate is the boolean mean times 100 rounded to one
decimal. -/
theorem claim_C5_lint_pass_rate_half (r1 r2 : MRec)
    (hk : keyOf r2 = keyOf r1)
    (h1 : lintPassB r1 = true) (h2 : lintPassB r2 = false) :
    summaryLintRates [r1, r2] = [(keyOf r1, 50)] := by
  have hkeys : groupKeys [r1, r2] = [keyOf r1] := by
    rw [groupKeys]
    simp only [List.map_cons, List.map_nil, hk]
    simp
  have hgrp : groupOf [r1, r2] (keyOf r1) = [r1, r2] := by
    rw [groupOf]
    simp [hk]
  have hcount : List.countP lintPassB [r1, r2] = 1 := by
    simp [List.countP_cons, h1, h2]
  rw [summaryLintRates, hkeys, List.map_cons, List.map_nil, hgrp, lintPassRate, hcount]
  norm_num [round1, roundHalfEvenZ]

def mrecPass : MRec :=
  ⟨"a_RAGTrue".data, "i2c".data, "gpt4".data, "True".data, "✓".data,
    "✓".data, "✓".data, "1.00e-03".data, "100".data⟩

def mrecFail : MRec :=
  ⟨"b_RAGTrue".data, "i2c".data, "gpt4".data, "True".data, "✗".data,
    "✗".data, "✗".data, "N/A".data, "N/A".data⟩

theorem claim_C5_lint_pass_rate_half_witness :
    summaryLintRates [mrecPass, mrecFail] = [(keyOf mrecPass, 50)] :=
  claim_C5_lint_pass_rate_half mrecPass mrecFail rfl (by decide) (by decide)

-- ## Claim C6: parse_metrics on the documented example lines

set_option maxHeartbeats 1600000 in
/-- C6 counterexample: a metrics file whose lines INCLUDE the four
documented lines but also a later `Timing Met: NO` line does not yield the
pass verdict for Timing — a later line overwrites the earlier verdict, so
the claim quantified over every file that merely includes those lines is
false. -/
theorem claim_C6_counterexample :
    ((["No lint errors".data, "Timing Met: YES".data,
        "Total Power 1.23e-03".data, "Chip Area 4567 µm²".data] : List (List Char)) ⊆
      ["No lint errors".data, "Timing Met: YES".data,
        "Total Power 1.23e-03".data, "Chip Area 4567 µm²".data, "Timing Met: NO".data]) ∧
    (parse_metrics "sample_RAGTrue".data "i2c".data "gpt4".data
      (some ["No lint errors".data, "Timing Met: YES".data,
        "Total Power 1.23e-03".data, "Chip Area 4567 µm²".data,
        "Timing Met: NO".data])).Timing = "✗".data ∧
    (parse_metrics "sample_RAGTrue".data "i2c".data "gpt4".data
      (some ["No lint errors".data, "Timing Met: YES".data,
        "Total Power 1.23e-03".data, "Chip Area 4567 µm²".data,
        "Timing Met: NO".data])).Timing ≠ "✓".data := by
  refine ⟨by decide, by decide, by decide⟩

set_option maxHeartbeats 1600000 in
/-- C6 (amended): for the metrics file whose lines are exactly
`No lint errors`, `Timing Met: YES`, `Total Power 1.23e-03` and
`Chip Area 4567 µm²`, `parse_metrics` yields the pass symbol for Lint and
Timing, power `1.23e-03` and area `4567`. -/
theorem claim_C6_parse_metrics_example :
    (parse_metrics "sample_RAGTrue".data "i2c".data "gpt4".data
      (some ["No lint errors".data, "Timing Met: YES".data,
        "Total Power 1.23e-03".data, "Chip Area 4567 µm²".data])).Lint = "✓".data ∧
    (parse_metrics "sample_RAGTrue".data "i2c".data "gpt4".data
      (some ["No lint errors".data, "Timing Met: YES".data,
        "Total Power 1.23e-03".data, "Chip Area 4567 µm²".data])).Timing = "✓".data ∧
    (parse_metrics "sample_RAGTrue".data "i2c".data "gpt4".data
      (some ["No lint errors".data, "Timing Met: YES".data,
        "Total Power 1.23e-03".data, "Chip Area 4567 µm²".data])).Power = "1.23e-03".data ∧
    (parse_metrics "sample_RAGTrue".data "i2c".data "gpt4".data
      (some ["No lint errors".data, "Timing Met: YES".data,
        "Total Power 1.23e-03".data, "Chip Area 4567 µm²".data])).Area = "4567".data := by
  refine ⟨by decide, by decide, by decide, by decide⟩

-- ## Claim C8: idempotence of the extraction pass

/-- A file store: path to content. -/
def storeWrite (fs : List Char → Option (List Char)) (w : List Char × List Char) :
    List Char → Option (List Char) :=
  fun q => if q = w.1 then some w.2 else fs q

/-- Writing a list of files in order, each write overwriting the previous
content of its path (Python `open(path, 'w')`). -/
def applyWrites (fs : List Char → Option (List Char))
    (ws : List (List Char × List Char)) : List Char → Option (List Char) :=
  ws.foldl storeWrite fs

/-- One parsed JSON file of the walked input tree: its directory, its file
name, and the parsed key/value dict. -/
structure JsonFile where
  root : List Char
  name : List Char
  entries : List (List Char × List Char)

/-- The output path of one answer:
`os.path.join(output_folder, root.replace(folder_path, '').lstrip(os.sep), filename)`. -/
def outPath (folderPath outputFolder : List Char) (jf : JsonFile) (key : List Char)
    (code : List Char) : List Char :=
  outputFolder ++ "/".data ++
    ((removeAllSub folderPath jf.root).dropWhile (fun c => c = '/')) ++ "/".data ++
    convertFilename (extract_module_name code) key jf.name

/-- The writes produced for one JSON file: one output file per `answer_*`
key, holding the extracted code. -/
def fileWrites (folderPath outputFolder : List Char) (jf : JsonFile) :
    List (List Char × List Char) :=
  jf.entries.filterMap (fun kv =>
    if List.isPrefixOf "answer_".data kv.1 then
      some (outPath folderPath outputFolder jf kv.1 (extractAnswer kv.2), extractAnswer kv.2)
    else none)

/-- `process_json_files` of src/convert.py as a file-store transformer:
walk the parsed tree, extract each answer and write the output file. -/
def process_json_files (folderPath outputFolder : List Char) (files : List JsonFile)
    (fs : List Char → Option (List Char)) : List Char → Option (List Char) :=
  applyWrites fs (files.flatMap (fileWrites folderPath outputFolder))

/-- The last write to a path in a write list. -/
def lastWrite (ws : List (List Char × List Char)) (q : List Char) : Option (List Char) :=
  (ws.reverse.find? (fun w => decide (w.1 = q))).map Prod.snd

theorem applyWrites_apply (ws : List (List Char × List Char)) :
    ∀ (fs : List Char → Option (List Char)) (q : List Char),
      applyWrites fs ws q =
        match lastWrite ws q with
        | some v => some v
        | none => fs q := by
  induction ws with
  | nil => intro fs q; rfl
  | cons w ws ih =>
    intro fs q
    have hstep : applyWrites fs (w :: ws) = applyWrites (storeWrite fs w) ws := rfl
    rw [hstep, ih]
    have hlw : lastWrite (w :: ws) q =
        ((ws.reverse.find? (fun x => decide (x.1 = q))).or
          (List.find? (fun x => decide (x.1 = q)) [w])).map Prod.snd := by
      rw [lastWrite, List.reverse_cons, List.find?_append]
    cases hfind : ws.reverse.find? (fun x => decide (x.1 = q)) with
    | some pr =>
      rw [hlw, hfind]
      rw [show lastWrite ws q = some pr.2 from by rw [lastWrite, hfind]; rfl]
      rfl
    | none =>
      rw [hlw, hfind]
      rw [show lastWrite ws q = none from by rw [lastWrite, hfind]; rfl]
      by_cases hq : w.1 = q
      · simp [storeWrite, hq, List.find?]
      · have hq2 : ¬ (q = w.1) := fun he => hq he.symm
        simp [storeWrite, hq, hq2, List.find?]

theorem applyWrites_idem (ws : List (List Char × List Char))
    (fs : List Char → Option (List Char)) :
    applyWrites (applyWrites fs ws) ws = applyWrites fs ws := by
  funext q
  rw [applyWrites_apply ws (applyWrites fs ws) q]
  cases h : lastWrite ws q with
  | some v => rw [applyWrites_apply ws fs q, h]
  | none => simp only [applyWrites_apply ws fs q, h]

/-- C8: extraction is idempotent and deterministic on a fixed input tree:
running `process_json_files` twice leaves exactly the file store of one
run, because the writes are a deterministic function of the input JSON
alone and the second run overwrites each output file with identical
content. -/
theorem claim_C8_idempotent (folderPath outputFolder : List Char) (files : List JsonFile)
    (fs : List Char → Option (List Char)) :
    process_json_files folderPath outputFolder files
        (process_json_files folderPath outputFolder files fs) =
      process_json_files folderPath outputFolder files fs := by
  simp only [process_json_files]
  exact applyWrites_idem _ _
